import Mathlib

/-!
Verification of the OpenStudio-HPXML-Calibration core against its
natural-language specification.

The Python source is shallowly embedded: floats become exact rationals
(`ℚ`, with `BiasVal` adding the explicit `nan` the code produces),
Python dicts become association lists in insertion order, and the
external numeric collaborators (scipy `curve_fit`, the simulator) are
inputs to the embedded logic.  Each definition mirrors one function of
`calibrate.py`, `regression.py` or `utility_data.py`.
-/

namespace Calib

/-- The three disaggregated end uses used throughout the codebase. -/
inductive EndUse where
  | baseload
  | heating
  | cooling
deriving DecidableEq, Repr

/-- One row of the daily disaggregated prediction DataFrame
(`predict_disaggregated` output: columns baseload, heating, cooling). -/
structure DisaggRow where
  baseload : ℚ
  heating : ℚ
  cooling : ℚ
deriving DecidableEq, Repr

/-- Association-list lookup modelling Python dict access / pandas
label lookup: the first binding of the key wins. -/
def alookup {α β : Type} [DecidableEq α] (k : α) : List (α × β) → Option β
  | [] => none
  | kv :: rest => if kv.1 = k then some kv.2 else alookup k rest

/-- Python `round` rounds half to even.  This is the exact
round-half-even of a rational to an integer. -/
def roundHalfEven (q : ℚ) : ℤ :=
  let f := ⌊q⌋
  let r := q - f
  if r < 1/2 then f
  else if 1/2 < r then f + 1
  else if f % 2 = 0 then f else f + 1

/-- Python `round(x, d)`: round half to even at `d` decimal places. -/
def pyRound (q : ℚ) (d : ℕ) : ℚ :=
  (roundHalfEven (q * 10 ^ d) : ℚ) / 10 ^ d

/-- A float that is either an ordinary value or the `float("nan")`
explicitly produced by `compare_results` for a bias error. -/
inductive BiasVal where
  | nan
  | val (v : ℚ)
deriving DecidableEq, Repr

/-- Python `min(xs, key=f)` on a nonempty list: the first element with
minimal key. -/
def pyMinBy {α : Type} (f : α → ℚ) : List α → Option α
  | [] => none
  | x :: xs => some (xs.foldl (fun b a => if f a < f b then a else b) x)

theorem pyMinBy_foldl_mem {α : Type} (f : α → ℚ) :
    ∀ (xs : List α) (x : α), xs.foldl (fun b a => if f a < f b then a else b) x ∈ x :: xs := by
  intro xs
  induction xs with
  | nil => intro x; simp
  | cons y ys ih =>
    intro x
    have h := ih (if f y < f x then y else x)
    simp only [List.foldl_cons]
    rcases List.mem_cons.mp h with h1 | h1
    · by_cases hc : f y < f x
      · simp [hc] at h1
        simp [List.foldl_cons, hc, h1]
      · simp [hc] at h1
        simp [List.foldl_cons, hc, h1]
    · simp [List.mem_cons]
      right; right
      exact h1

theorem pyMinBy_foldl_le {α : Type} (f : α → ℚ) :
    ∀ (xs : List α) (x : α) (a : α), a ∈ x :: xs →
      f (xs.foldl (fun b a => if f a < f b then a else b) x) ≤ f a := by
  intro xs
  induction xs with
  | nil =>
    intro x a ha
    simp at ha
    simp [ha]
  | cons y ys ih =>
    intro x a ha
    simp only [List.foldl_cons]
    have hxy : f (if f y < f x then y else x) ≤ f x ∧ f (if f y < f x then y else x) ≤ f y := by
      by_cases hc : f y < f x
      · simp [hc]; exact le_of_lt hc
      · simp [hc]; exact le_of_not_lt hc
    rcases List.mem_cons.mp ha with h1 | h1
    · subst h1
      calc f (ys.foldl _ (if f y < f a then y else a)) ≤ f (if f y < f a then y else a) :=
            ih _ _ (List.mem_cons_self _ _)
        _ ≤ f a := hxy.1
    · rcases List.mem_cons.mp h1 with h2 | h2
      · subst h2
        calc f (ys.foldl _ (if f a < f x then a else x)) ≤ f (if f a < f x then a else x) :=
              ih _ _ (List.mem_cons_self _ _)
          _ ≤ f a := hxy.2
      · exact ih _ a (List.mem_cons_of_mem _ h2)

theorem pyMinBy_mem {α : Type} (f : α → ℚ) {l : List α} {b : α}
    (h : pyMinBy f l = some b) : b ∈ l := by
  cases l with
  | nil => simp [pyMinBy] at h
  | cons x xs =>
    simp only [pyMinBy, Option.some.injEq] at h
    subst h
    exact pyMinBy_foldl_mem f xs x

theorem pyMinBy_le {α : Type} (f : α → ℚ) {l : List α} {b : α}
    (h : pyMinBy f l = some b) : ∀ a ∈ l, f b ≤ f a := by
  cases l with
  | nil => simp [pyMinBy] at h
  | cons x xs =>
    simp only [pyMinBy, Option.some.injEq] at h
    subst h
    intro a ha
    exact pyMinBy_foldl_le f xs x a ha

/-!
### `_calculate_wrapped_total` (calibrate.py, inside `get_normalized_consumption_per_bill`)

`epw_daily_mbtu` is the 365-row daily disaggregated prediction DataFrame.
A pandas `DataFrame.sum()` is a Series indexed by the column labels, which we
model as an association list.  `.iloc[a:b]` is drop-then-take, `.iloc[a:]` is
drop, `.iloc[0:b]` is take, `pd.concat` appends, and
`series[~series.index.duplicated()]` keeps the first occurrence of each
index label.
-/

/-- Pandas `DataFrame.sum()`: per-column sums as a label-indexed Series
(column order baseload, heating, cooling, as created by
`predict_disaggregated`). -/
def colSum (rows : List DisaggRow) : List (EndUse × ℚ) :=
  [(EndUse.baseload, (rows.map DisaggRow.baseload).sum),
   (EndUse.heating, (rows.map DisaggRow.heating).sum),
   (EndUse.cooling, (rows.map DisaggRow.cooling).sum)]

/-- Pandas `series[~series.index.duplicated()]`: keep, in order, entries whose
label has not appeared before. -/
def dedupKeepFirst (seen : List EndUse) : List (EndUse × ℚ) → List (EndUse × ℚ)
  | [] => []
  | x :: xs =>
    if x.1 ∈ seen then dedupKeepFirst seen xs
    else x :: dedupKeepFirst (x.1 :: seen) xs

/-- The `_calculate_wrapped_total` closure of calibrate.py: `start` and `stop` are the
row's `start_day_of_year` and `end_day_of_year` values. -/
def calculate_wrapped_total (epw_daily_mbtu : List DisaggRow) (start stop : ℕ) :
    List (EndUse × ℚ) :=
  if start ≤ stop then colSum ((epw_daily_mbtu.drop start).take (stop - start))
  else
    let part1 := colSum (epw_daily_mbtu.drop start)
    let part2 := colSum (epw_daily_mbtu.take stop)
    dedupKeepFirst [] (part1 ++ part2)

/-- The total the specification requires for a wrapped bill window: the
per-column sums over exactly the disjoint union of day-of-year ranges
[start, 365] and [1, stop], where row `i` of the 365-row table holds
day-of-year `i + 1`.  Each qualifying row is counted once. -/
def spec_wrapped_total (epw_daily_mbtu : List DisaggRow) (start stop : ℕ) :
    List (EndUse × ℚ) :=
  colSum (((List.range epw_daily_mbtu.length).filter
      (fun i => (start ≤ i + 1 ∧ i + 1 ≤ 365) ∨ i + 1 ≤ stop)).filterMap
    (fun i => epw_daily_mbtu.get? i))

/-!
### `evaluate` (calibrate.py, inside `run_ga_search`) and the result join

On success `evaluate` returns the 4-tuple
`((total_score,), comparison, temp_output_dir, simulation_results_copy)`;
on any exception it returns the 3-tuple `((float("inf"),), {}, None)`.
The caller joins results back with
`for ind, (fit, comp, temp_dir, sim_results) in zip(invalid_ind, fitnesses)`,
i.e. it unpacks each returned tuple into exactly four targets; Python raises
`ValueError` when the tuple has a different arity.  Fitness scores are
`WithTop ℚ` with `⊤` standing for `float("inf")`.
-/

/-- A fuel's entry in a comparison dict:
`{"Bias Error": {...}, "Absolute Error": {...}}`. -/
structure FuelComp where
  biasError : List (EndUse × BiasVal)
  absoluteError : List (EndUse × ℚ)
deriving DecidableEq, Repr

abbrev Comparison := List (String × FuelComp)

abbrev EndUseMap := List (EndUse × ℚ)

/-- Annual model results: fuel type → end use → mbtu. -/
abbrev ModelResults := List (String × EndUseMap)

/-- One component of the tuple `evaluate` returns. -/
inductive EvalItem where
  | fitTuple (score : WithTop ℚ)
  | compDict (c : Comparison)
  | pathVal (tempDir : ℕ)
  | noneVal
  | simVal (s : ModelResults)
deriving DecidableEq

/-- Whether the body of `evaluate` ran to completion (with the values the
external simulator produced) or raised an exception. -/
inductive EvalOutcome where
  | success (score : ℚ) (comp : Comparison) (tempDir : ℕ) (sim : ModelResults)
  | raised

/-- The tuple returned by `evaluate`, as the list of its components. -/
def evaluate : EvalOutcome → List EvalItem
  | .success score comp tempDir sim =>
    [.fitTuple (score : ℚ), .compDict comp, .pathVal tempDir, .simVal sim]
  | .raised => [.fitTuple ⊤, .compDict [], .noneVal]

/-- Python unpacking of a tuple into the four targets
`(fit, comp, temp_dir, sim_results)`. -/
def unpackFour (l : List EvalItem) :
    Except String (EvalItem × EvalItem × EvalItem × EvalItem) :=
  match l with
  | [a, b, c, d] => .ok (a, b, c, d)
  | _ => .error "ValueError: not enough values to unpack"

/-- The `for ind, (fit, comp, temp_dir, sim_results) in zip(...)` join:
stops with the `ValueError` at the first result of the wrong arity. -/
def joinEvalResults (results : List (List EvalItem)) :
    Except String (List (EvalItem × EvalItem × EvalItem × EvalItem)) :=
  match results with
  | [] => .ok []
  | r :: rest => do
    let t ← unpackFour r
    let ts ← joinEvalResults rest
    pure (t :: ts)

/-!
### `fit_model` (regression.py)

The nonlinear least-squares solve (`scipy.optimize.curve_fit`) and the float
CVRMSE computed from its parameters are external numerics: each of the three
candidate shapes either converges (yielding a fitted candidate carrying its
CVRMSE on the table) or fails with the caught max-evaluations RuntimeError
(yielding `none` after the warning).  `fit_model` then selects
`min(models, key=lambda x: x.calc_cvrmse(bills_temps))` and applies the
BPI-2400 acceptance check.
-/

/-- A regression candidate that converged, with the CVRMSE
`calc_cvrmse` computes for it on the bills/temperature table. -/
structure FitCandidate where
  name : String
  cvrmse : ℚ
deriving DecidableEq, Repr

/-- The errors `fit_model` can raise: `Bpi2400ModelFitError` is a distinct
type from the generic `ValueError` that `min` raises on an empty
sequence. -/
inductive FitModelError where
  | bpi2400 (cvrmse : ℚ)
  | valueError (msg : String)
deriving DecidableEq, Repr

/-- Embedded `fit_model(bills_temps, bpi2400)`: candidates that failed to converge
are dropped, the remaining one with minimal CVRMSE is chosen, and with
`bpi2400` set a CVRMSE above 0.2 raises `Bpi2400ModelFitError`. -/
def fit_model (fitResults : List (Option FitCandidate)) (bpi2400 : Bool) :
    Except FitModelError FitCandidate :=
  let models := fitResults.filterMap id
  match pyMinBy FitCandidate.cvrmse models with
  | none => .error (.valueError "min arg is an empty sequence")
  | some best =>
    if bpi2400 = true ∧ 1/5 < best.cvrmse then .error (.bpi2400 best.cvrmse)
    else .ok best

/-!
### `compare_results` (calibrate.py)

All inputs are in mbtu.  `normalized_consumption` maps a fuel type to the
per-bill normalized DataFrame; for each end-use column we carry the list of
per-bill values, so `consumption[end_use].sum()` is a list sum.
`annual_model_results` is the dict of dicts from `get_model_results`.
-/

/-- Modelled from the spec: `convert_units(x, "mbtu", "kwh")` of the
`units` module (not provided in the sources): electricity values are
converted from MBtu to kWh by a fixed positive factor
(1 MBtu = 10^6/3412.14 kWh). -/
def kwhPerMbtu : ℚ := 100000000 / 341214

theorem kwhPerMbtu_pos : 0 < kwhPerMbtu := by norm_num [kwhPerMbtu]

/-- The mbtu → kWh unit conversion applied to electricity values only
(lines 338-350 of calibrate.py). -/
def convVal (fuel : String) (v : ℚ) : ℚ :=
  if fuel = "electricity" then kwhPerMbtu * v else v

/-- Body of the first loop of `compare_results`: an end use is kept only
when it is present in `annual_model_results[fuel]` with a nonzero value;
its stored value is `consumption[end_use].sum().round(1)`. -/
def normalizedEntry (model : ModelResults) (fuel : String) (cons : EndUse → List ℚ)
    (e : EndUse) : Option (EndUse × ℚ) :=
  match alookup e ((alookup fuel model).getD []) with
  | none => none
  | some v => if v = 0 then none else some (e, pyRound ((cons e).sum) 1)

/-- First loop of `compare_results`: the
`annual_normalized_bill_consumption` dict, iterating the end uses
`["heating", "cooling", "baseload"]` for each fuel of
`normalized_consumption`. -/
def annual_normalized_bill_consumption
    (normalized : List (String × (EndUse → List ℚ))) (model : ModelResults) :
    List (String × EndUseMap) :=
  normalized.map (fun fc =>
    (fc.1, [EndUse.heating, EndUse.cooling, EndUse.baseload].filterMap
      (normalizedEntry model fc.1 fc.2)))

/-- One comparison entry for a load type: the (possibly NaN) bias error and
the absolute error, after the electricity unit conversion. -/
def compareEntry (fuel : String) (normv simv : ℚ) : BiasVal × ℚ :=
  let n := convVal fuel normv
  let s := convVal fuel simv
  (if n = 0 then BiasVal.nan else BiasVal.val (pyRound (((n - s) / n) * 100) 1),
   pyRound |n - s| 1)

/-- Second loop of `compare_results`, for one fuel: iterate the model's
load types in order, skipping those missing from the normalized dict. -/
def compareEntries (fuel : String) (annFuel : EndUseMap) (disagg : EndUseMap) :
    List (EndUse × BiasVal × ℚ) :=
  disagg.filterMap (fun es =>
    match alookup es.1 annFuel with
    | none => none
    | some normv => some (es.1, compareEntry fuel normv es.2))

/-- The `{"Bias Error": {...}, "Absolute Error": {...}}` pair built for one
fuel. -/
def mkFuelComp (fuel : String) (annFuel : EndUseMap) (disagg : EndUseMap) : FuelComp :=
  ⟨(compareEntries fuel annFuel disagg).map (fun t => (t.1, t.2.1)),
   (compareEntries fuel annFuel disagg).map (fun t => (t.1, t.2.2))⟩

/-- Embedded `compare_results(normalized_consumption, annual_model_results)`:
fuels of the model results that also appear in the normalized dict, each
with its bias/absolute error maps. -/
def compare_results (normalized : List (String × (EndUse → List ℚ)))
    (model : ModelResults) : Comparison :=
  let ann := annual_normalized_bill_consumption normalized model
  model.filterMap (fun fd =>
    (alookup fd.1 ann).map (fun annFuel => (fd.1, mkFuelComp fd.1 annFuel fd.2)))

/-- The normalized-consumption value `compare_results` uses for a
(fuel, end use) pair: the `annual_normalized_bill_consumption` entry after
the electricity unit conversion. -/
def normalizedValueUsed (normalized : List (String × (EndUse → List ℚ)))
    (model : ModelResults) (fuel : String) (e : EndUse) : Option ℚ :=
  (alookup e ((alookup fuel (annual_normalized_bill_consumption normalized model)).getD [])).map
    (convVal fuel)

/-!
### `simplified_annual_usage` (calibrate.py), per-fuel body

Lines 470-525: given the model's end-use totals, the measured delivered-fuel
consumption, the bill-window day count, and the actual/TMY degree-day
totals, compute the normalized annual end uses and the comparison entry for
the fuel.  A zero normalized value short-circuits the bias-error division
to `0` via Python truthiness (`... if normalized_annual_x else 0`).
-/

structure SimplifiedFuelResult where
  normalized_annual_baseload : ℚ
  normalized_annual_heating : ℚ
  normalized_annual_cooling : ℚ
  comp : FuelComp
deriving Repr

def simplified_annual_usage_fuel (modeled_baseload modeled_heating modeled_cooling
    measured_consumption num_days hdd_actual hdd_tmy cdd_actual cdd_tmy : ℚ) :
    SimplifiedFuelResult :=
  let total_modeled_usage := modeled_baseload + modeled_heating + modeled_cooling
  let baseload_fraction := modeled_baseload / total_modeled_usage
  let heating_fraction := modeled_heating / total_modeled_usage
  let cooling_fraction := modeled_cooling / total_modeled_usage
  let baseload := baseload_fraction * (num_days / 365)
  let heating := heating_fraction * (hdd_actual / hdd_tmy)
  let cooling := cooling_fraction * (cdd_actual / cdd_tmy)
  let annual_delivered_fuel_usage := measured_consumption / (baseload + heating + cooling)
  let normalized_annual_baseload := annual_delivered_fuel_usage * baseload_fraction
  let normalized_annual_heating := annual_delivered_fuel_usage * heating_fraction
  let normalized_annual_cooling := annual_delivered_fuel_usage * cooling_fraction
  let baseload_bias_error := if normalized_annual_baseload ≠ 0 then
      ((normalized_annual_baseload - modeled_baseload) / normalized_annual_baseload) * 100
    else 0
  let heating_bias_error := if normalized_annual_heating ≠ 0 then
      ((normalized_annual_heating - modeled_heating) / normalized_annual_heating) * 100
    else 0
  let cooling_bias_error := if normalized_annual_cooling ≠ 0 then
      ((normalized_annual_cooling - modeled_cooling) / normalized_annual_cooling) * 100
    else 0
  { normalized_annual_baseload := normalized_annual_baseload
    normalized_annual_heating := normalized_annual_heating
    normalized_annual_cooling := normalized_annual_cooling
    comp :=
      ⟨[(EndUse.baseload, BiasVal.val (pyRound baseload_bias_error 2)),
        (EndUse.heating, BiasVal.val (pyRound heating_bias_error 2)),
        (EndUse.cooling, BiasVal.val (pyRound cooling_bias_error 2))],
       [(EndUse.baseload, pyRound |normalized_annual_baseload - modeled_baseload| 2),
        (EndUse.heating, pyRound |normalized_annual_heating - modeled_heating| 2),
        (EndUse.cooling, pyRound |normalized_annual_cooling - modeled_cooling| 2)]⟩ }

/-!
### Generation step of `run_ga_search` (calibrate.py)

DEAP individuals carry a fitness; weights are `(-1.0,)`, so selecting the
"best" individual minimizes the penalty.  `⊤ : WithTop ℚ` is the
`float("inf")` penalty.  Each generation does
`elite = [copy.deepcopy(ind) for ind in tools.selBest(pop, k=1)]`, then
varies and evaluates offspring, then
`pop = toolbox.select(offspring, population_size - len(elite));
pop.extend(elite)`.  Tournament selection and the variation operators are
modelled by an arbitrary `selected` list, since elitism must hold for every
random outcome.
-/

structure Individual where
  genome : List ℚ
  fitness : WithTop ℚ
deriving DecidableEq, Repr

/-- DEAP `tools.selBest(pop, k=1)`: the first individual with minimal penalty
(DEAP sorts by the weighted fitness, maximizing; `sorted` is stable). -/
def selBest (pop : List Individual) : Option Individual :=
  pop.foldr (fun a b => match b with
    | none => some a
    | some b => if a.fitness ≤ b.fitness then some a else some b) none

/-- The minimum fitness value present in a population. -/
def bestFitness (pop : List Individual) : WithTop ℚ :=
  (pop.map Individual.fitness).foldr min ⊤

/-- The population after one generation:
`toolbox.select(offspring, population_size - 1)` (an arbitrary list of
evaluated offspring) followed by `pop.extend(elite)` where the elite is the
deep-copied best of the previous generation. -/
def nextGeneration (pop selected : List Individual) : List Individual :=
  selected ++ (selBest pop).toList

/-!
### Termination of `run_ga_search` (calibrate.py)

`abs_error_within_threshold` and `meets_termination_criteria` are embedded
directly; the generation loop over `range(1, generations + 1)` is a
recursion over the list of the per-generation best comparisons, returning
the `terminated_early` flag and the number of generations executed.
-/

def abs_error_within_threshold (fuel_type : String) (abs_err elec_threshold fuel_threshold : ℚ) :
    Bool :=
  if fuel_type = "electricity" then decide (|abs_err| ≤ elec_threshold)
  else decide (|abs_err| ≤ fuel_threshold)

/-- Python `abs(bias_err) > bias_error_threshold` clears the all-bias flag; a NaN
bias error never does, since every float comparison with NaN is False. -/
def bias_within (b : BiasVal) (t : ℚ) : Bool :=
  match b with
  | .nan => true
  | .val v => decide (|v| ≤ t)

def meets_termination_criteria (comparison : Comparison)
    (bias_error_threshold abs_error_elec_threshold abs_error_fuel_threshold : ℚ) : Bool :=
  let all_bias_err_limit_met := comparison.all (fun fm =>
    fm.2.biasError.all (fun eb => bias_within eb.2 bias_error_threshold))
  let all_abs_err_limit_met := comparison.all (fun fm =>
    fm.2.biasError.all (fun eb =>
      abs_error_within_threshold fm.1 ((alookup eb.1 fm.2.absoluteError).getD 0)
        abs_error_elec_threshold abs_error_fuel_threshold))
  all_bias_err_limit_met || all_abs_err_limit_met

/-- The generation loop: `comps` lists the best individual's comparison at
generations 1, 2, …, `generations` (its length is the configured limit).
Returns the `terminated_early` flag and the number of generations run. -/
def gaLoop (comps : List Comparison) (biasT elecT fuelT : ℚ) : Bool × ℕ :=
  match comps with
  | [] => (false, 0)
  | c :: rest =>
    if meets_termination_criteria c biasT elecT fuelT then (true, 1)
    else
      let r := gaLoop rest biasT elecT fuelT
      (r.1, r.2 + 1)

/-!
### Consumption-positivity check of `hpxml_data_error_checking` (calibrate.py)

Lines 657-664: the document is rejected (`ValueError` raised) iff
`not any(all(detail.Consumption > 0 for detail in fuel.ConsumptionDetail)
for fuel in all_fuels)`.  A document is the list of its fuels' consumption
value lists.
-/

/-- Returns true when the check passes (no `ValueError` raised). -/
def consumption_positivity_passes (all_fuels : List (List ℚ)) : Bool :=
  all_fuels.any (fun details => details.all (fun c => decide (0 < c)))

/-!
### Genome operations of `run_ga_search` (calibrate.py)

A genome is a list of gene values; `choiceLists` is the configured discrete
choice list per gene position (`param_choices_map`).  `random.choice(l)`
with the random draw abstracted as an arbitrary index `k` is
`l[k % len(l)]`.  `tools.cxUniform` (DEAP) swaps the two parents' genes at
the positions where an independent coin lands true.  `adaptive_mutation`
reassigns each chosen index to a value drawn from its choice list filtered
to exclude the current value (if that filter is empty the gene is kept).
The random index/coin draws are parameters, since the invariant must hold
for every draw.
-/

/-- Python `random.choice(l)`: an arbitrary element of `l`, parameterized by a
draw `k`. -/
def pyChoice (l : List ℚ) (k : ℕ) : ℚ := l.getD (k % l.length) 0

/-- The closed-genome invariant: each gene is a member of its position's
configured choice list. -/
def GenomeValid (choiceLists : List (List ℚ)) (g : List ℚ) : Prop :=
  List.Forall₂ (fun gene choices => gene ∈ choices) g choiceLists

/-- Embedded `generate_random_individual`: one `random.choice` per gene position. -/
def generate_random_individual (choiceLists : List (List ℚ)) (picks : ℕ → ℕ) : List ℚ :=
  (List.range choiceLists.length).map (fun i => pyChoice (choiceLists.getD i []) (picks i))

/-- DEAP `tools.cxUniform`: per-position swap where the coin is true;
positions beyond the coins (or beyond either parent) are unchanged. -/
def cxUniform : List ℚ → List ℚ → List Bool → List ℚ × List ℚ
  | x :: xs, y :: ys, c :: cs =>
    let r := cxUniform xs ys cs
    if c then (y :: r.1, x :: r.2) else (x :: r.1, y :: r.2)
  | xs, ys, _ => (xs, ys)

/-- The per-gene body of `adaptive_mutation`:
`choices = [val for val in param_choices_map[param_name] if val != current_val]`
then `individual[i] = random.choice(choices)` when nonempty. -/
def mutateGene (choices : List ℚ) (current_val : ℚ) (k : ℕ) : ℚ :=
  let cs := choices.filter (fun v => decide (v ≠ current_val))
  if cs.isEmpty then current_val else pyChoice cs k

/-- Embedded `adaptive_mutation`: the selected mutation indices (with their random
draws) are applied in order; how the biased index set is sampled does not
affect the genome invariant, so it is a parameter. -/
def adaptive_mutation (choiceLists : List (List ℚ)) (individual : List ℚ)
    (muts : List (ℕ × ℕ)) : List ℚ :=
  muts.foldl (fun g ik =>
    g.set ik.1 (mutateGene (choiceLists.getD ik.1 []) (g.getD ik.1 0) ik.2)) individual

/-!
### Regression model shapes (regression.py)

`func` and `predict_disaggregated` of the three `UtilityBillRegressionModel`
subclasses, pointwise over a temperature vector, with `np.maximum(x, 0)` and
`np.minimum(x, 0)` as `max`/`min` with 0.
-/

namespace ThreeParameterCooling

def func (b1 b2 b3 x : ℚ) : ℚ := b1 + b2 * max (x - b3) 0

def predict_disaggregated (b1 b2 b3 : ℚ) (temperatures : List ℚ) : List DisaggRow :=
  temperatures.map (fun x =>
    { baseload := b1, heating := 0, cooling := b2 * max (x - b3) 0 })

end ThreeParameterCooling

namespace ThreeParameterHeating

def func (b1 b2 b3 x : ℚ) : ℚ := b1 + b2 * min (x - b3) 0

def predict_disaggregated (b1 b2 b3 : ℚ) (temperatures : List ℚ) : List DisaggRow :=
  temperatures.map (fun x =>
    { baseload := b1, heating := b2 * min (x - b3) 0, cooling := 0 })

end ThreeParameterHeating

namespace FiveParameter

def func (b1 b2 b3 b4 b5 x : ℚ) : ℚ :=
  b1 + b2 * min (x - b4) 0 + b3 * max (x - b5) 0

def predict_disaggregated (b1 b2 b3 b4 b5 : ℚ) (temperatures : List ℚ) : List DisaggRow :=
  temperatures.map (fun x =>
    { baseload := b1, heating := b2 * min (x - b4) 0, cooling := b3 * max (x - b5) 0 })

end FiveParameter

/-- The total a disaggregated row sums to. -/
def rowTotal (r : DisaggRow) : ℚ := r.baseload + r.heating + r.cooling

/-!
## Theorems
-/

/-- C6: for every fitted model of each of the three variants and every
temperature vector, the three columns of `predict_disaggregated` satisfy
baseload + heating + cooling == func(temperature, parameters) pointwise. -/
theorem predict_disaggregated_sums_to_func (temperatures : List ℚ) :
    (∀ b1 b2 b3 : ℚ,
      (ThreeParameterCooling.predict_disaggregated b1 b2 b3 temperatures).map rowTotal
        = temperatures.map (ThreeParameterCooling.func b1 b2 b3)) ∧
    (∀ b1 b2 b3 : ℚ,
      (ThreeParameterHeating.predict_disaggregated b1 b2 b3 temperatures).map rowTotal
        = temperatures.map (ThreeParameterHeating.func b1 b2 b3)) ∧
    (∀ b1 b2 b3 b4 b5 : ℚ,
      (FiveParameter.predict_disaggregated b1 b2 b3 b4 b5 temperatures).map rowTotal
        = temperatures.map (FiveParameter.func b1 b2 b3 b4 b5)) := by
  refine ⟨fun b1 b2 b3 => ?_, fun b1 b2 b3 => ?_, fun b1 b2 b3 b4 b5 => ?_⟩ <;>
    simp only [ThreeParameterCooling.predict_disaggregated, ThreeParameterCooling.func,
      ThreeParameterHeating.predict_disaggregated, ThreeParameterHeating.func,
      FiveParameter.predict_disaggregated, FiveParameter.func, List.map_map] <;>
    exact List.map_congr_left (fun x _ => by
      simp only [Function.comp_apply, rowTotal, ThreeParameterCooling.func,
        ThreeParameterHeating.func, FiveParameter.func]
      try ring)

/-- C2: on an exception, `evaluate` returns the 3-tuple
`((float("inf"),), {}, None)`; the success path returns a 4-tuple; and the
result-join loop, which unpacks each result into
`(fit, comp, temp_dir, sim_results)`, raises `ValueError` on the 3-tuple
instead of continuing — a failed individual aborts the run. -/
theorem evaluate_failure_return_breaks_unpack :
    evaluate .raised = [.fitTuple ⊤, .compDict [], .noneVal] ∧
    (evaluate .raised).length = 3 ∧
    (∀ (score : ℚ) (comp : Comparison) (d : ℕ) (sim : ModelResults),
      (evaluate (.success score comp d sim)).length = 4) ∧
    joinEvalResults [evaluate (.success 0 [] 0 []), evaluate .raised] =
      .error "ValueError: not enough values to unpack" :=
  ⟨rfl, rfl, fun _ _ _ _ => rfl, rfl⟩

/-- C8 counterexample: a document whose second fuel carries the non-positive
consumption value −5 still passes the positivity check of
`hpxml_data_error_checking`, because the check is
`any(all(... > 0 ...))` over fuels: one all-positive fuel suffices. -/
theorem consumption_check_passes_with_nonpositive :
    (∃ details ∈ [[(1 : ℚ)], [-5]], ∃ c ∈ details, c ≤ 0) ∧
    consumption_positivity_passes [[(1 : ℚ)], [-5]] = true := by
  constructor
  · exact ⟨[-5], by simp, -5, by simp, by norm_num⟩
  · simp [consumption_positivity_passes]

/-- C8 (amended): the consumption-positivity check of
`hpxml_data_error_checking` passes iff at least one fuel has all of its
consumption values positive; it does not reject a document in which some
other fuel carries a non-positive value. -/
theorem consumption_check_characterization (all_fuels : List (List ℚ)) :
    consumption_positivity_passes all_fuels = true ↔
      ∃ details ∈ all_fuels, ∀ c ∈ details, 0 < c := by
  simp [consumption_positivity_passes, List.any_eq_true, List.all_eq_true]

/-- C3: whenever at least one regression candidate converges, `fit_model`
selects a converged candidate of minimal CVRMSE; it returns it unless
`bpi2400` is set and that CVRMSE exceeds 0.2, in which case it raises the
distinct `Bpi2400ModelFitError` (not a generic error). -/
theorem fit_model_min_cvrmse (fitResults : List (Option FitCandidate)) (bpi2400 : Bool)
    (h : fitResults.filterMap id ≠ []) :
    ∃ best ∈ fitResults.filterMap id,
      (∀ m ∈ fitResults.filterMap id, best.cvrmse ≤ m.cvrmse) ∧
      fit_model fitResults bpi2400 =
        if bpi2400 = true ∧ 1/5 < best.cvrmse then .error (.bpi2400 best.cvrmse)
        else .ok best := by
  cases hm : pyMinBy FitCandidate.cvrmse (fitResults.filterMap id) with
  | none =>
    exfalso
    cases hl : fitResults.filterMap id with
    | nil => exact h hl
    | cons x xs => rw [hl] at hm; simp [pyMinBy] at hm
  | some best =>
    refine ⟨best, pyMinBy_mem _ hm, pyMinBy_le _ hm, ?_⟩
    simp only [fit_model, hm]

/-- Witness for C3 at a concrete list of fit outcomes (the heating model
failed to converge; the 5-parameter model has the smaller CVRMSE). -/
theorem fit_model_min_cvrmse_w :
    (([some ⟨"3-parameter Cooling", 3/10⟩, none,
        some ⟨"5-parameter", 1/10⟩] : List (Option FitCandidate)).filterMap id ≠ []) ∧
    (∃ best ∈ ([some ⟨"3-parameter Cooling", 3/10⟩, none,
        some ⟨"5-parameter", 1/10⟩] : List (Option FitCandidate)).filterMap id,
      (∀ m ∈ ([some ⟨"3-parameter Cooling", 3/10⟩, none,
          some ⟨"5-parameter", 1/10⟩] : List (Option FitCandidate)).filterMap id,
        best.cvrmse ≤ m.cvrmse) ∧
      fit_model [some ⟨"3-parameter Cooling", 3/10⟩, none,
          some ⟨"5-parameter", 1/10⟩] true =
        if true = true ∧ 1/5 < best.cvrmse then .error (.bpi2400 best.cvrmse)
        else .ok best) :=
  ⟨by simp, fit_model_min_cvrmse _ true (by simp)⟩

theorem colSum_replicate (n : ℕ) (r : DisaggRow) :
    colSum (List.replicate n r) =
      [(EndUse.baseload, (n : ℚ) * r.baseload), (EndUse.heating, (n : ℚ) * r.heating),
       (EndUse.cooling, (n : ℚ) * r.cooling)] := by
  simp [colSum, List.map_replicate, List.sum_replicate, nsmul_eq_mul]

theorem filterMap_getElem_replicate (x : DisaggRow) (n : ℕ) :
    ∀ is : List ℕ, (∀ i ∈ is, i < n) →
      is.filterMap (fun i => (List.replicate n x).get? i) = List.replicate is.length x := by
  intro is
  induction is with
  | nil => simp
  | cons j js ih =>
    intro h
    have hj : j < n := h j (by simp)
    have hget : (List.replicate n x).get? j = some x := by
      rw [List.get?_eq_getElem?]
      simp [List.getElem?_replicate, hj]
    rw [List.filterMap_cons, hget, ih (fun i hi => h i (by simp [hi]))]
    simp [List.replicate_succ]

/-- C1 (code bug): on the uniform 365-row reference-year table and the
wrapped bill window 350 → 15, `_calculate_wrapped_total` returns 15 days
of consumption per column — only the December slice — while the
specification requires the 31 days of [350, 365] ∪ [1, 15].  The
`pd.concat` of the two already-summed slices produces a Series indexed by
the duplicated column labels, so `index.duplicated()` drops the entire
January part. -/
theorem wrapped_total_drops_wrap_slice :
    alookup EndUse.baseload
        (calculate_wrapped_total (List.replicate 365 ⟨1, 1, 1⟩) 350 15) = some 15 ∧
    alookup EndUse.baseload
        (spec_wrapped_total (List.replicate 365 ⟨1, 1, 1⟩) 350 15) = some 31 ∧
    (15 : ℚ) ≠ 31 := by
  refine ⟨?_, ?_, by norm_num⟩
  · rw [calculate_wrapped_total, if_neg (by norm_num)]
    rw [List.drop_replicate, List.take_replicate]
    norm_num [colSum_replicate, dedupKeepFirst, alookup]
  · rw [spec_wrapped_total,
      filterMap_getElem_replicate _ _ _ (fun i hi => by
        have h1 := (List.mem_filter.mp hi).1
        rw [List.mem_range, List.length_replicate] at h1
        exact h1)]
    have hlen : ((List.range (List.replicate (n := 365) (⟨1, 1, 1⟩ : DisaggRow)).length).filter
        (fun i => decide ((350 ≤ i + 1 ∧ i + 1 ≤ 365) ∨ i + 1 ≤ 15))).length = 31 := by
      rw [List.length_replicate]
      decide
    rw [hlen]
    norm_num [colSum_replicate, alookup]

theorem selBest_mem : ∀ {pop : List Individual} {b : Individual},
    selBest pop = some b → b ∈ pop := by
  intro pop
  induction pop with
  | nil => intro b h; simp [selBest] at h
  | cons x xs ih =>
    intro b h
    rw [selBest, List.foldr_cons] at h
    cases hx : List.foldr _ none xs with
    | none => rw [hx] at h; simp at h; simp [h]
    | some c =>
      rw [hx] at h
      by_cases hc : x.fitness ≤ c.fitness
      · simp [hc] at h; simp [h]
      · simp [hc] at h
        exact List.mem_cons_of_mem _ (ih (h ▸ hx))

theorem selBest_le : ∀ {pop : List Individual} {b : Individual},
    selBest pop = some b → ∀ a ∈ pop, b.fitness ≤ a.fitness := by
  intro pop
  induction pop with
  | nil => intro b h; simp [selBest] at h
  | cons x xs ih =>
    intro b h a ha
    rw [selBest, List.foldr_cons] at h
    cases hx : List.foldr _ none xs with
    | none =>
      rw [hx] at h
      simp at h
      subst h
      cases xs with
      | nil =>
        rcases List.mem_singleton.mp ha with rfl
        exact le_refl _
      | cons y ys => simp [selBest, List.foldr_cons] at hx; cases hy : List.foldr _ none ys <;>
          rw [hy] at hx <;> simp at hx <;> split at hx <;> simp at hx
    | some c =>
      rw [hx] at h
      have hcle : ∀ a ∈ xs, c.fitness ≤ a.fitness := ih hx
      by_cases hc : x.fitness ≤ c.fitness
      · simp [hc] at h
        subst h
        rcases List.mem_cons.mp ha with rfl | ha2
        · exact le_refl _
        · exact le_trans hc (hcle a ha2)
      · simp [hc] at h
        subst h
        rcases List.mem_cons.mp ha with rfl | ha2
        · exact le_of_not_le hc
        · exact hcle a ha2

theorem selBest_isSome {pop : List Individual} (h : pop ≠ []) :
    ∃ b, selBest pop = some b := by
  cases pop with
  | nil => exact absurd rfl h
  | cons x xs =>
    rw [selBest, List.foldr_cons]
    cases hx : List.foldr _ none xs with
    | none => exact ⟨x, rfl⟩
    | some c =>
      by_cases hc : x.fitness ≤ c.fitness
      · exact ⟨x, by simp [hc]⟩
      · exact ⟨c, by simp [hc]⟩

theorem foldr_min_le {l : List (WithTop ℚ)} {x : WithTop ℚ} (h : x ∈ l) :
    l.foldr min ⊤ ≤ x := by
  induction l with
  | nil => simp at h
  | cons y ys ih =>
    rcases List.mem_cons.mp h with rfl | h2
    · exact min_le_left _ _
    · exact le_trans (min_le_right _ _) (ih h2)

theorem le_foldr_min {l : List (WithTop ℚ)} {a : WithTop ℚ} (h : ∀ x ∈ l, a ≤ x) :
    a ≤ l.foldr min ⊤ := by
  induction l with
  | nil => simp
  | cons y ys ih =>
    exact le_min (h y (by simp)) (ih (fun x hx => h x (by simp [hx])))

/-- C5 (elitism invariant): whatever offspring the variation operators
produce and whatever tournament selection returns, the population built as
`select(offspring, N-1)` extended with the deep-copied best of the previous
generation never has a worse minimum fitness than the previous
generation. -/
theorem elitism_best_fitness_monotone (pop selected : List Individual) (h : pop ≠ []) :
    bestFitness (nextGeneration pop selected) ≤ bestFitness pop := by
  obtain ⟨b, hb⟩ := selBest_isSome h
  have hmem : b ∈ pop := selBest_mem hb
  have hle : ∀ a ∈ pop, b.fitness ≤ a.fitness := selBest_le hb
  have h1 : bestFitness (nextGeneration pop selected) ≤ b.fitness := by
    apply foldr_min_le
    rw [nextGeneration, hb]
    simp
  have h2 : b.fitness ≤ bestFitness pop := by
    apply le_foldr_min
    intro x hx
    obtain ⟨a, ha, rfl⟩ := List.mem_map.mp hx
    exact hle a ha
  exact le_trans h1 h2

/-- Witness for C5: a concrete two-individual population and an arbitrary
selected offspring list. -/
theorem elitism_best_fitness_monotone_w :
    ([⟨[], ((3 : ℚ) : WithTop ℚ)⟩, ⟨[], ((5 : ℚ) : WithTop ℚ)⟩] : List Individual) ≠ [] ∧
    bestFitness (nextGeneration
        [⟨[], ((3 : ℚ) : WithTop ℚ)⟩, ⟨[], ((5 : ℚ) : WithTop ℚ)⟩]
        [⟨[], ((7 : ℚ) : WithTop ℚ)⟩])
      ≤ bestFitness [⟨[], ((3 : ℚ) : WithTop ℚ)⟩, ⟨[], ((5 : ℚ) : WithTop ℚ)⟩] :=
  ⟨by simp, elitism_best_fitness_monotone _ _ (by simp)⟩

theorem gaLoop_true_pos (comps : List Comparison) (bT eT fT : ℚ) :
    (gaLoop comps bT eT fT).1 = true → 1 ≤ (gaLoop comps bT eT fT).2 := by
  induction comps with
  | nil => intro h; simp [gaLoop] at h
  | cons c rest ih =>
    intro h
    rw [gaLoop] at h ⊢
    by_cases hc : meets_termination_criteria c bT eT fT = true
    · simp [hc]
    · simp only [if_neg hc] at h ⊢
      omega

/-- C7: the generation loop stops, with the terminated-early flag true,
exactly at the first generation whose best comparison meets the termination
criteria (all bias errors within threshold, or all absolute errors within
the per-fuel threshold — the electricity threshold for electricity, the
fuel threshold otherwise); if no generation's best comparison ever meets
them, the loop runs through the whole configured list and the flag is
false. -/
theorem ga_early_termination (comps : List Comparison) (bT eT fT : ℚ) :
    (∀ n : ℕ, gaLoop comps bT eT fT = (true, n + 1) ↔
      ∃ pfx c sfx, comps = pfx ++ c :: sfx ∧ pfx.length = n ∧
        meets_termination_criteria c bT eT fT = true ∧
        ∀ c' ∈ pfx, meets_termination_criteria c' bT eT fT = false) ∧
    ((∀ c ∈ comps, meets_termination_criteria c bT eT fT = false) →
      gaLoop comps bT eT fT = (false, comps.length)) ∧
    (∀ c : Comparison, meets_termination_criteria c bT eT fT = true ↔
      ((∀ fm ∈ c, ∀ eb ∈ fm.2.biasError, bias_within eb.2 bT = true) ∨
       (∀ fm ∈ c, ∀ eb ∈ fm.2.biasError,
          abs_error_within_threshold fm.1 ((alookup eb.1 fm.2.absoluteError).getD 0)
            eT fT = true))) := by
  refine ⟨?_, ?_, ?_⟩
  · intro n
    induction comps generalizing n with
    | nil =>
      simp [gaLoop]
    | cons c0 rest ih =>
      rw [gaLoop]
      by_cases hc : meets_termination_criteria c0 bT eT fT = true
      · rw [if_pos hc]
        constructor
        · intro h
          have hn : n = 0 := by
            have := (Prod.mk.injEq _ _ _ _).mp h
            omega
          subst hn
          exact ⟨[], c0, rest, rfl, rfl, hc, by simp⟩
        · rintro ⟨pfx, c, sfx, heq, hlen, hcm, hall⟩
          cases pfx with
          | nil =>
            simp at hlen
            simp [← hlen]
          | cons p ps =>
            rw [List.cons_append] at heq
            simp only [List.cons.injEq] at heq
            exact absurd (heq.1 ▸ hc) (by simp [hall p (by simp)])
      · rw [if_neg hc]
        constructor
        · intro h
          have h1 : (gaLoop rest bT eT fT).1 = true := ((Prod.mk.injEq _ _ _ _).mp h).1
          have h2 : (gaLoop rest bT eT fT).2 + 1 = n + 1 := ((Prod.mk.injEq _ _ _ _).mp h).2
          have hpos := gaLoop_true_pos rest bT eT fT h1
          obtain ⟨m, hm⟩ : ∃ m, (gaLoop rest bT eT fT).2 = m + 1 :=
            ⟨(gaLoop rest bT eT fT).2 - 1, by omega⟩
          have hrest : gaLoop rest bT eT fT = (true, m + 1) := by
            rw [Prod.ext_iff]; exact ⟨h1, hm⟩
          obtain ⟨pfx, c, sfx, heq, hlen, hcm, hall⟩ := (ih m).mp hrest
          refine ⟨c0 :: pfx, c, sfx, by simp [heq], by simp [hlen]; omega, hcm, ?_⟩
          intro c' hc'
          rcases List.mem_cons.mp hc' with rfl | hmem
          · exact eq_false_of_ne_true hc
          · exact hall c' hmem
        · rintro ⟨pfx, c, sfx, heq, hlen, hcm, hall⟩
          cases pfx with
          | nil =>
            simp only [List.nil_append, List.cons.injEq] at heq
            exact absurd (heq.1 ▸ hcm) hc
          | cons p ps =>
            rw [List.cons_append] at heq
            simp only [List.cons.injEq] at heq
            obtain ⟨m, hn⟩ : ∃ m, n = m + 1 := by
              cases n with
              | zero => simp at hlen
              | succ m => exact ⟨m, rfl⟩
            subst hn
            have hrest : gaLoop rest bT eT fT = (true, m + 1) := by
              apply (ih m).mpr
              refine ⟨ps, c, sfx, heq.2, by simpa using hlen, hcm, ?_⟩
              intro c' hc'
              exact hall c' (by simp [hc'])
            rw [hrest]
  · intro hall
    induction comps with
    | nil => simp [gaLoop]
    | cons c0 rest ih =>
      rw [gaLoop, if_neg (by simp [hall c0 (by simp)]),
        ih (fun c hc => hall c (by simp [hc]))]
      simp
  · intro c
    simp only [meets_termination_criteria, Bool.or_eq_true, List.all_eq_true]

theorem pyChoice_mem {l : List ℚ} (k : ℕ) (h : l ≠ []) : pyChoice l k ∈ l := by
  have hlt : k % l.length < l.length := Nat.mod_lt _ (List.length_pos.mpr h)
  rw [pyChoice, List.getD_eq_getElem l 0 hlt]
  exact List.getElem_mem hlt

theorem generate_random_individual_valid (choiceLists : List (List ℚ)) (picks : ℕ → ℕ)
    (h : ∀ l ∈ choiceLists, l ≠ []) :
    GenomeValid choiceLists (generate_random_individual choiceLists picks) := by
  rw [GenomeValid, List.forall₂_iff_get]
  constructor
  · simp [generate_random_individual]
  · intro i h1 h2
    simp only [generate_random_individual, List.get_eq_getElem, List.getElem_map,
      List.getElem_range]
    have hgd : choiceLists.getD i [] = choiceLists[i] := List.getD_eq_getElem _ _ h2
    rw [hgd]
    exact pyChoice_mem _ (h _ (List.getElem_mem h2))

theorem cxUniform_valid :
    ∀ (coins : List Bool) (choiceLists : List (List ℚ)) (g1 g2 : List ℚ),
      GenomeValid choiceLists g1 → GenomeValid choiceLists g2 →
      GenomeValid choiceLists (cxUniform g1 g2 coins).1 ∧
      GenomeValid choiceLists (cxUniform g1 g2 coins).2 := by
  intro coins
  induction coins with
  | nil =>
    intro cls g1 g2 h1 h2
    cases g1 <;> cases g2 <;> exact ⟨h1, h2⟩
  | cons c cs ih =>
    intro cls g1 g2 h1 h2
    cases g1 with
    | nil => exact ⟨h1, h2⟩
    | cons x xs =>
      cases g2 with
      | nil => exact ⟨h1, h2⟩
      | cons y ys =>
        rw [GenomeValid] at h1 h2
        cases hcl : cls with
        | nil =>
          rw [hcl] at h1
          exact absurd h1 (by simp [List.forall₂_nil_right_iff])
        | cons L Ls =>
          rw [hcl] at h1 h2
          have hx := (List.forall₂_cons.mp h1).1
          have hxs := (List.forall₂_cons.mp h1).2
          have hy := (List.forall₂_cons.mp h2).1
          have hys := (List.forall₂_cons.mp h2).2
          have ihr := ih Ls xs ys hxs hys
          rw [cxUniform]
          by_cases hc : c = true
          · subst hc
            simp only [if_pos rfl]
            exact ⟨List.forall₂_cons.mpr ⟨hy, ihr.1⟩, List.forall₂_cons.mpr ⟨hx, ihr.2⟩⟩
          · simp only [Bool.not_eq_true] at hc
            subst hc
            rw [if_neg (by simp)]
            exact ⟨List.forall₂_cons.mpr ⟨hx, ihr.1⟩, List.forall₂_cons.mpr ⟨hy, ihr.2⟩⟩

theorem GenomeValid.set {choiceLists : List (List ℚ)} {g : List ℚ}
    (hg : GenomeValid choiceLists g) :
    ∀ (i : ℕ) (v : ℚ), (∀ h : i < choiceLists.length, v ∈ choiceLists[i]) →
      GenomeValid choiceLists (g.set i v) := by
  induction hg with
  | nil => intro i v _; simp [GenomeValid]
  | @cons a b l1 l2 ha hl ih =>
    intro i v hv
    cases i with
    | zero => exact List.Forall₂.cons (hv (by simp)) hl
    | succ m =>
      refine List.Forall₂.cons ha (ih m v ?_)
      intro hm
      have := hv (by simpa using Nat.succ_lt_succ hm)
      simpa using this

theorem mutateGene_mem {choices : List ℚ} {cur : ℚ} (k : ℕ) (hcur : cur ∈ choices) :
    mutateGene choices cur k ∈ choices := by
  rw [mutateGene]
  by_cases hcs : (choices.filter (fun v => decide (v ≠ cur))).isEmpty
  · rw [if_pos hcs]; exact hcur
  · rw [if_neg hcs]
    have hne : choices.filter (fun v => decide (v ≠ cur)) ≠ [] := by
      simpa [List.isEmpty_iff] using hcs
    exact List.mem_of_mem_filter (pyChoice_mem k hne)

theorem mutateGene_ne {choices : List ℚ} {cur : ℚ} (k : ℕ)
    (h : choices.filter (fun v => decide (v ≠ cur)) ≠ []) :
    mutateGene choices cur k ≠ cur := by
  rw [mutateGene]
  rw [if_neg (by simpa [List.isEmpty_iff] using h)]
  have hm := pyChoice_mem k h
  have := List.mem_filter.mp hm
  simpa using this.2

theorem adaptive_mutation_valid (choiceLists : List (List ℚ)) (g : List ℚ)
    (muts : List (ℕ × ℕ)) (hg : GenomeValid choiceLists g) :
    GenomeValid choiceLists (adaptive_mutation choiceLists g muts) := by
  rw [adaptive_mutation]
  induction muts generalizing g with
  | nil => simpa
  | cons ik iks ih =>
    rw [List.foldl_cons]
    apply ih
    apply hg.set
    intro hi
    have hlen : g.length = choiceLists.length := hg.length_eq
    have hgd : choiceLists.getD ik.1 [] = choiceLists[ik.1] := List.getD_eq_getElem _ _ hi
    have hgi : ik.1 < g.length := by omega
    have hcur : g.getD ik.1 0 = g[ik.1] := List.getD_eq_getElem _ _ hgi
    have hmem : g[ik.1] ∈ choiceLists[ik.1] := by
      have := (List.forall₂_iff_get.mp hg).2 ik.1 hgi hi
      simpa using this
    rw [hgd, hcur]
    exact mutateGene_mem _ hmem

/-- C9 (closed-genome invariant): every gene stays inside its position's
configured choice list — after `generate_random_individual`, across
`tools.cxUniform` crossover, and across `adaptive_mutation`; moreover a
mutated gene is never reassigned the value it already had when a different
choice exists. -/
theorem genome_closed_invariant (choiceLists : List (List ℚ)) :
    (∀ picks : ℕ → ℕ, (∀ l ∈ choiceLists, l ≠ []) →
      GenomeValid choiceLists (generate_random_individual choiceLists picks)) ∧
    (∀ (g1 g2 : List ℚ) (coins : List Bool),
      GenomeValid choiceLists g1 → GenomeValid choiceLists g2 →
      GenomeValid choiceLists (cxUniform g1 g2 coins).1 ∧
      GenomeValid choiceLists (cxUniform g1 g2 coins).2) ∧
    (∀ (g : List ℚ) (muts : List (ℕ × ℕ)), GenomeValid choiceLists g →
      GenomeValid choiceLists (adaptive_mutation choiceLists g muts)) ∧
    (∀ (choices : List ℚ) (cur : ℚ) (k : ℕ),
      choices.filter (fun v => decide (v ≠ cur)) ≠ [] →
      mutateGene choices cur k ≠ cur) :=
  ⟨fun picks h => generate_random_individual_valid choiceLists picks h,
   fun g1 g2 coins h1 h2 => cxUniform_valid coins choiceLists g1 g2 h1 h2,
   fun g muts hg => adaptive_mutation_valid choiceLists g muts hg,
   fun _ _ k h => mutateGene_ne k h⟩

/-- Witness for C9 at a concrete two-gene configuration. -/
theorem genome_closed_invariant_w :
    GenomeValid [[(1 : ℚ), 2], [3]]
      (generate_random_individual [[(1 : ℚ), 2], [3]] (fun _ => 1)) ∧
    (GenomeValid [[(1 : ℚ), 2], [3]] (cxUniform [1, 3] [2, 3] [true, false]).1 ∧
     GenomeValid [[(1 : ℚ), 2], [3]] (cxUniform [1, 3] [2, 3] [true, false]).2) ∧
    GenomeValid [[(1 : ℚ), 2], [3]] (adaptive_mutation [[(1 : ℚ), 2], [3]] [1, 3] [(0, 0)]) ∧
    mutateGene [(1 : ℚ), 2] 1 0 ≠ 1 := by
  have hv1 : GenomeValid [[(1 : ℚ), 2], [3]] [1, 3] :=
    List.Forall₂.cons (by norm_num) (List.Forall₂.cons (by norm_num) List.Forall₂.nil)
  have hv2 : GenomeValid [[(1 : ℚ), 2], [3]] [2, 3] :=
    List.Forall₂.cons (by norm_num) (List.Forall₂.cons (by norm_num) List.Forall₂.nil)
  refine ⟨(genome_closed_invariant _).1 _ ?_,
    (genome_closed_invariant _).2.1 _ _ _ hv1 hv2,
    (genome_closed_invariant _).2.2.1 _ _ hv1,
    (genome_closed_invariant [[(1 : ℚ), 2], [3]]).2.2.2 [1, 2] 1 0 ?_⟩
  · intro l hl
    rcases List.mem_cons.mp hl with rfl | hl2
    · simp
    · rcases List.mem_cons.mp hl2 with rfl | hl3
      · simp
      · simp at hl3
  · norm_num [List.filter]

theorem alookup_nil {α β : Type} [DecidableEq α] (k : α) :
    alookup k ([] : List (α × β)) = none := rfl

theorem alookup_cons {α β : Type} [DecidableEq α] (k : α) (kv : α × β) (l : List (α × β)) :
    alookup k (kv :: l) = if kv.1 = k then some kv.2 else alookup k l := rfl

theorem alookup_eq_none {α β : Type} [DecidableEq α] {k : α} :
    ∀ {l : List (α × β)}, k ∉ l.map Prod.fst → alookup k l = none := by
  intro l
  induction l with
  | nil => intro _; rfl
  | cons kv rest ih =>
    intro h
    rw [alookup_cons, if_neg (fun he => h (by simp [he])), ih (fun he => h (by simp [he]))]

theorem alookup_map_snd {α β γ : Type} [DecidableEq α] (f : α → β → γ) (k : α) :
    ∀ l : List (α × β),
      alookup k (l.map (fun t => (t.1, f t.1 t.2))) = (alookup k l).map (f k) := by
  intro l
  induction l with
  | nil => rfl
  | cons t rest ih =>
    rw [List.map_cons, alookup_cons, alookup_cons]
    by_cases h : t.1 = k
    · subst h; simp
    · simp [h, ih]

theorem alookup_entries_fst (e : EndUse) :
    ∀ l : List (EndUse × BiasVal × ℚ),
      alookup e (l.map (fun t => (t.1, t.2.1))) = (alookup e l).map (fun p => p.1) := by
  intro l
  induction l with
  | nil => rfl
  | cons t rest ih =>
    rw [List.map_cons, alookup_cons, alookup_cons]
    by_cases h : t.1 = e
    · simp [h]
    · simp [h, ih]

theorem alookup_entries_snd (e : EndUse) :
    ∀ l : List (EndUse × BiasVal × ℚ),
      alookup e (l.map (fun t => (t.1, t.2.2))) = (alookup e l).map (fun p => p.2) := by
  intro l
  induction l with
  | nil => rfl
  | cons t rest ih =>
    rw [List.map_cons, alookup_cons, alookup_cons]
    by_cases h : t.1 = e
    · simp [h]
    · simp [h, ih]

theorem alookup_filterMap_model (ann : List (String × EndUseMap)) :
    ∀ (model : ModelResults) (fuel : String),
      (model.map Prod.fst).Nodup →
      alookup fuel (model.filterMap (fun fd =>
        (alookup fd.1 ann).map (fun annFuel => (fd.1, mkFuelComp fd.1 annFuel fd.2)))) =
      (alookup fuel model).bind (fun disagg =>
        (alookup fuel ann).map (fun annFuel => mkFuelComp fuel annFuel disagg)) := by
  intro model
  induction model with
  | nil => intro fuel _; rfl
  | cons fd rest ih =>
    intro fuel hnd
    rw [List.map_cons] at hnd
    have hnd' := List.nodup_cons.mp hnd
    rw [List.filterMap_cons]
    by_cases hf : fd.1 = fuel
    · subst hf
      cases hann : alookup fd.1 ann with
      | none =>
        simp only [hann, Option.map_none']
        rw [ih _ hnd'.2, alookup_eq_none hnd'.1]
        simp [alookup_cons, hann]
      | some annFuel =>
        simp [hann, alookup_cons]
    · cases hann : alookup fd.1 ann with
      | none =>
        simp only [hann, Option.map_none']
        rw [ih _ hnd'.2, alookup_cons, if_neg hf]
      | some annFuel =>
        simp only [hann, Option.map_some']
        rw [alookup_cons, alookup_cons]
        simp only [if_neg hf]
        exact ih _ hnd'.2

theorem alookup_compareEntries (fuel : String) (annFuel : EndUseMap) (e : EndUse) :
    ∀ disagg : EndUseMap,
      alookup e (compareEntries fuel annFuel disagg) =
        (alookup e annFuel).bind (fun normv =>
          (alookup e disagg).map (fun simv => compareEntry fuel normv simv)) := by
  intro disagg
  induction disagg with
  | nil => cases alookup e annFuel <;> simp [compareEntries, alookup_nil]
  | cons es rest ih =>
    rw [compareEntries, List.filterMap_cons]
    cases hl : alookup es.1 annFuel with
    | none =>
      simp only [hl]
      rw [show rest.filterMap _ = compareEntries fuel annFuel rest from rfl, ih]
      by_cases he : es.1 = e
      · subst he
        rw [hl]
        simp
      · rw [alookup_cons, if_neg he]
    | some normv =>
      simp only [hl]
      rw [alookup_cons]
      by_cases he : es.1 = e
      · subst he
        rw [hl]
        simp [alookup_cons]
      · rw [if_neg he,
          show rest.filterMap _ = compareEntries fuel annFuel rest from rfl, ih,
          alookup_cons, if_neg he]

theorem alookup_filterMap_keyed {β : Type} (val : EndUse → Option β) (e : EndUse) :
    ∀ es : List EndUse,
      alookup e (es.filterMap (fun x => (val x).map (fun q => (x, q)))) =
        if e ∈ es then val e else none := by
  intro es
  induction es with
  | nil => simp [alookup_nil]
  | cons x rest ih =>
    rw [List.filterMap_cons]
    cases hx : val x with
    | none =>
      simp only [hx, Option.map_none']
      rw [ih]
      by_cases he : x = e
      · subst he
        simp [hx]
      · have hxe : ¬e = x := fun h => he h.symm
        simp only [List.mem_cons]
        by_cases hem : e ∈ rest
        · simp [hem]
        · simp [hem, hxe]
    | some q =>
      simp only [hx, Option.map_some']
      rw [alookup_cons]
      by_cases he : x = e
      · subst he
        simp [hx]
      · have hxe : ¬e = x := fun h => he h.symm
        rw [if_neg he, ih]
        simp only [List.mem_cons]
        by_cases hem : e ∈ rest
        · simp [hem]
        · simp [hem, hxe]

theorem alookup_annual_normalized (normalized : List (String × (EndUse → List ℚ)))
    (model : ModelResults) (fuel : String) :
    alookup fuel (annual_normalized_bill_consumption normalized model) =
      (alookup fuel normalized).map (fun cons =>
        [EndUse.heating, EndUse.cooling, EndUse.baseload].filterMap
          (normalizedEntry model fuel cons)) := by
  rw [annual_normalized_bill_consumption]
  exact alookup_map_snd
    (fun k cons => [EndUse.heating, EndUse.cooling, EndUse.baseload].filterMap
      (normalizedEntry model k cons))
    fuel normalized

theorem alookup_annFuel_value (model : ModelResults) (fuel : String)
    (cons : EndUse → List ℚ) (e : EndUse) :
    alookup e ([EndUse.heating, EndUse.cooling, EndUse.baseload].filterMap
        (normalizedEntry model fuel cons)) =
      (alookup e ((alookup fuel model).getD [])).bind (fun v =>
        if v = 0 then none else some (pyRound ((cons e).sum) 1)) := by
  have hbody : normalizedEntry model fuel cons =
      fun x => ((alookup x ((alookup fuel model).getD [])).bind (fun v =>
        if v = 0 then none else some (pyRound ((cons x).sum) 1))).map (fun q => (x, q)) := by
    funext x
    rw [normalizedEntry]
    cases alookup x ((alookup fuel model).getD []) with
    | none => rfl
    | some v =>
      by_cases hv : v = 0 <;> simp [hv]
  rw [hbody, alookup_filterMap_keyed]
  rw [if_pos (by cases e <;> simp)]

theorem pyRound_zero (d : ℕ) : pyRound 0 d = 0 := by
  rw [pyRound, roundHalfEven]
  norm_num

theorem pyRound_intCast (z : ℤ) (d : ℕ) : pyRound (z : ℚ) d = (z : ℚ) := by
  simp only [pyRound, roundHalfEven]
  have h1 : ((z : ℚ) * 10 ^ d) = ((z * 10 ^ d : ℤ) : ℚ) := by push_cast; ring
  rw [h1, Int.floor_intCast, sub_self, if_pos (by norm_num)]
  push_cast
  rw [mul_div_cancel_right₀ _ (by positivity : ((10 : ℚ) ^ d) ≠ 0)]

theorem pyRound_five : pyRound 5 1 = 5 := by
  have h := pyRound_intCast 5 1
  norm_num at h
  exact h

/-- C10 (implicit): an end use whose simulated annual value is absent from
`annual_model_results[fuel]` or exactly 0.0 is omitted from
`compare_results` output entirely: it appears in neither the Bias Error map
nor the Absolute Error map for that fuel, whatever the bill-derived
normalized consumption is. -/
theorem compare_results_omits_zero_simulated
    (normalized : List (String × (EndUse → List ℚ))) (model : ModelResults)
    (fuel : String) (disagg : EndUseMap) (fc : FuelComp) (e : EndUse)
    (hnd : (model.map Prod.fst).Nodup)
    (hm : alookup fuel model = some disagg)
    (hz : alookup e disagg = none ∨ alookup e disagg = some 0)
    (hout : alookup fuel (compare_results normalized model) = some fc) :
    alookup e fc.biasError = none ∧ alookup e fc.absoluteError = none := by
  rw [compare_results, alookup_filterMap_model _ _ _ hnd, hm, Option.some_bind] at hout
  obtain ⟨annFuel, hann, hfc⟩ := Option.map_eq_some'.mp hout
  have hA : alookup e annFuel = none := by
    rw [alookup_annual_normalized] at hann
    obtain ⟨cons, _, hbuild⟩ := Option.map_eq_some'.mp hann
    rw [← hbuild, alookup_annFuel_value, hm]
    simp only [Option.getD_some]
    rcases hz with hz | hz
    · rw [hz, Option.none_bind]
    · rw [hz, Option.some_bind, if_pos rfl]
  rw [← hfc]
  constructor
  · rw [show (mkFuelComp fuel annFuel disagg).biasError =
        (compareEntries fuel annFuel disagg).map (fun t => (t.1, t.2.1)) from rfl,
      alookup_entries_fst, alookup_compareEntries, hA, Option.none_bind, Option.map_none']
  · rw [show (mkFuelComp fuel annFuel disagg).absoluteError =
        (compareEntries fuel annFuel disagg).map (fun t => (t.1, t.2.2)) from rfl,
      alookup_entries_snd, alookup_compareEntries, hA, Option.none_bind, Option.map_none']

/-- Witness for C10 at a concrete document: natural gas cooling is
simulated as exactly 0.0, so it is absent from both error maps. -/
theorem compare_results_omits_zero_simulated_w :
    (([("natural gas", [(EndUse.cooling, (0 : ℚ))])] : ModelResults).map Prod.fst).Nodup ∧
    alookup "natural gas" ([("natural gas", [(EndUse.cooling, (0 : ℚ))])] : ModelResults) =
      some [(EndUse.cooling, 0)] ∧
    alookup EndUse.cooling [(EndUse.cooling, (0 : ℚ))] = some 0 ∧
    alookup "natural gas"
      (compare_results [("natural gas", fun _ => ([] : List ℚ))]
        [("natural gas", [(EndUse.cooling, 0)])]) = some ⟨[], []⟩ ∧
    (alookup EndUse.cooling (FuelComp.mk [] []).biasError = none ∧
     alookup EndUse.cooling (FuelComp.mk [] []).absoluteError = none) :=
  ⟨by simp, rfl, rfl, rfl,
   compare_results_omits_zero_simulated
     [("natural gas", fun _ => ([] : List ℚ))]
     [("natural gas", [(EndUse.cooling, 0)])]
     "natural gas" [(EndUse.cooling, 0)] ⟨[], []⟩ EndUse.cooling
     (by simp) rfl (Or.inr rfl) rfl⟩

/-- C4 counterexample: the claim requires Bias Error to be NaN exactly when
normalized consumption is zero in *both* comparison paths, but in the
delivered-fuel path (`simplified_annual_usage`) a zero normalized value
yields Bias Error 0 (a number), not NaN: with modeled usage
(baseload, heating, cooling) = (50, 50, 0), measured 100 over 365 days and
degree days HDD 1000/1000, CDD 200/500, the normalized annual cooling is 0
and its reported Bias Error is 0. -/
theorem simplified_zero_normalized_bias_is_zero :
    (simplified_annual_usage_fuel 50 50 0 100 365 1000 1000 200 500).normalized_annual_cooling
      = 0 ∧
    alookup EndUse.cooling
      (simplified_annual_usage_fuel 50 50 0 100 365 1000 1000 200 500).comp.biasError =
      some (BiasVal.val 0) ∧
    BiasVal.val 0 ≠ BiasVal.nan := by
  refine ⟨?_, ?_, by simp⟩
  · norm_num [simplified_annual_usage_fuel]
  · norm_num [simplified_annual_usage_fuel, alookup_cons, pyRound, roundHalfEven]

/-- C4 (amended): in the regression path (`compare_results`), a reported
Bias Error is NaN exactly when the normalized-consumption value used for
that (fuel, end use) is zero; in the delivered-fuel path
(`simplified_annual_usage`), Bias Error is never NaN — when a normalized
annual value is zero the reported Bias Error is the number 0. -/
theorem bias_nan_policy :
    (∀ (normalized : List (String × (EndUse → List ℚ))) (model : ModelResults)
        (fuel : String) (fc : FuelComp) (e : EndUse) (b : BiasVal),
      (model.map Prod.fst).Nodup →
      alookup fuel (compare_results normalized model) = some fc →
      alookup e fc.biasError = some b →
      (b = BiasVal.nan ↔ normalizedValueUsed normalized model fuel e = some 0)) ∧
    (∀ mb mh mc mec nd ha ht ca ct : ℚ,
      (∀ (e : EndUse) (bv : BiasVal),
        alookup e (simplified_annual_usage_fuel mb mh mc mec nd ha ht ca ct).comp.biasError =
          some bv → bv ≠ BiasVal.nan) ∧
      ((simplified_annual_usage_fuel mb mh mc mec nd ha ht ca ct).normalized_annual_baseload = 0 →
        alookup EndUse.baseload
          (simplified_annual_usage_fuel mb mh mc mec nd ha ht ca ct).comp.biasError =
          some (BiasVal.val 0)) ∧
      ((simplified_annual_usage_fuel mb mh mc mec nd ha ht ca ct).normalized_annual_heating = 0 →
        alookup EndUse.heating
          (simplified_annual_usage_fuel mb mh mc mec nd ha ht ca ct).comp.biasError =
          some (BiasVal.val 0)) ∧
      ((simplified_annual_usage_fuel mb mh mc mec nd ha ht ca ct).normalized_annual_cooling = 0 →
        alookup EndUse.cooling
          (simplified_annual_usage_fuel mb mh mc mec nd ha ht ca ct).comp.biasError =
          some (BiasVal.val 0))) := by
  constructor
  · intro normalized model fuel fc e b hnd hout hb
    rw [compare_results, alookup_filterMap_model _ _ _ hnd] at hout
    cases hm : alookup fuel model with
    | none => rw [hm, Option.none_bind] at hout; exact absurd hout (by simp)
    | some disagg =>
      rw [hm, Option.some_bind] at hout
      obtain ⟨annFuel, hann, hfc⟩ := Option.map_eq_some'.mp hout
      rw [← hfc] at hb
      rw [show (mkFuelComp fuel annFuel disagg).biasError =
          (compareEntries fuel annFuel disagg).map (fun t => (t.1, t.2.1)) from rfl,
        alookup_entries_fst, alookup_compareEntries] at hb
      cases hA : alookup e annFuel with
      | none => rw [hA, Option.none_bind, Option.map_none'] at hb; exact absurd hb (by simp)
      | some normv =>
        rw [hA, Option.some_bind] at hb
        cases hD : alookup e disagg with
        | none => rw [hD, Option.map_none', Option.map_none'] at hb; exact absurd hb (by simp)
        | some simv =>
          rw [hD, Option.map_some', Option.map_some'] at hb
          have hbv : b = (compareEntry fuel normv simv).1 :=
            ((Option.some.injEq _ _).mp hb).symm
          have hnv : normalizedValueUsed normalized model fuel e =
              some (convVal fuel normv) := by
            rw [normalizedValueUsed, hann]
            simp only [Option.getD_some, hA, Option.map_some']
          rw [hbv, hnv]
          by_cases hzero : convVal fuel normv = 0
          · simp [compareEntry, hzero]
          · simp [compareEntry, hzero]
  · intro mb mh mc mec nd ha ht ca ct
    refine ⟨?_, ?_, ?_, ?_⟩
    · intro e bv h
      cases bv with
      | val q => simp
      | nan =>
        exfalso
        cases e <;>
          · simp only [simplified_annual_usage_fuel, alookup_cons, alookup_nil] at h
            simp at h
    · intro h0
      simp only [simplified_annual_usage_fuel] at h0 ⊢
      rw [alookup_cons, if_pos rfl, if_neg (not_ne_iff.mpr h0), pyRound_zero]
    · intro h0
      simp only [simplified_annual_usage_fuel] at h0 ⊢
      rw [alookup_cons, if_neg (by simp), alookup_cons, if_pos rfl,
        if_neg (not_ne_iff.mpr h0), pyRound_zero]
    · intro h0
      simp only [simplified_annual_usage_fuel] at h0 ⊢
      rw [alookup_cons, if_neg (by simp), alookup_cons, if_neg (by simp),
        alookup_cons, if_pos rfl, if_neg (not_ne_iff.mpr h0), pyRound_zero]

/-- Witness for C4 at concrete inputs: a natural-gas baseload normalized to
zero (empty bill list) against a simulated 5 mbtu yields the NaN bias, and
the delivered-fuel path with all modeled usage zero reports bias 0. -/
theorem bias_nan_policy_w :
    (([("natural gas", [(EndUse.baseload, (5 : ℚ))])] : ModelResults).map Prod.fst).Nodup ∧
    alookup "natural gas"
      (compare_results [("natural gas", fun _ => ([] : List ℚ))]
        [("natural gas", [(EndUse.baseload, 5)])]) =
      some ⟨[(EndUse.baseload, BiasVal.nan)], [(EndUse.baseload, 5)]⟩ ∧
    alookup EndUse.baseload
      (FuelComp.mk [(EndUse.baseload, BiasVal.nan)] [(EndUse.baseload, (5 : ℚ))]).biasError =
      some BiasVal.nan ∧
    (BiasVal.nan = BiasVal.nan ↔
      normalizedValueUsed [("natural gas", fun _ => ([] : List ℚ))]
        [("natural gas", [(EndUse.baseload, 5)])] "natural gas" EndUse.baseload = some 0) ∧
    (simplified_annual_usage_fuel 0 0 0 100 365 1 1 1 1).normalized_annual_baseload = 0 ∧
    alookup EndUse.baseload
      (simplified_annual_usage_fuel 0 0 0 100 365 1 1 1 1).comp.biasError =
      some (BiasVal.val 0) := by
  have hann2 : annual_normalized_bill_consumption
      [("natural gas", fun _ => ([] : List ℚ))] [("natural gas", [(EndUse.baseload, 5)])] =
      [("natural gas", [(EndUse.baseload, 0)])] := by
    simp [annual_normalized_bill_consumption, normalizedEntry, alookup_cons, alookup_nil,
      List.filterMap_cons, pyRound_zero]
  have hout : alookup "natural gas"
      (compare_results [("natural gas", fun _ => ([] : List ℚ))]
        [("natural gas", [(EndUse.baseload, 5)])]) =
      some ⟨[(EndUse.baseload, BiasVal.nan)], [(EndUse.baseload, 5)]⟩ := by
    have habs : |(0 : ℚ) - 5| = 5 := by norm_num
    simp [compare_results, hann2, mkFuelComp, compareEntries, compareEntry, convVal,
      alookup_cons, alookup_nil, List.filterMap_cons, habs, pyRound_five]
  have hz : (simplified_annual_usage_fuel 0 0 0 100 365 1 1 1 1).normalized_annual_baseload
      = 0 := by
    norm_num [simplified_annual_usage_fuel]
  exact ⟨by simp, hout, rfl,
    bias_nan_policy.1 _ _ _ _ _ _ (by simp) hout rfl,
    hz, (bias_nan_policy.2 0 0 0 100 365 1 1 1 1).2.1 hz⟩

end Calib
